import Mathlib

/-!
Verification development for `pymavlink/generator/mavgen_wlua.py`, a generator
that turns a MAVLink protocol model into a Wireshark Lua dissector.

The development shallowly embeds, as executable Lean definitions:
* the generator-side helpers (`get_field_info`, `is_power_of_2`, the enum /
  flag-enum table builders, `generate_cmd_params` descriptor emission, the
  field-variable selection of `generate_field_dissector`);
* the behaviour of the emitted Lua code (the payload padding prologue emitted
  by `generate_payload_dissector`, the `time_usec_decode` helper emitted by
  `generate_preamble`, and the packet framing loop emitted by
  `generate_packet_dis`).

Buffers are `List Nat` (byte values), sizes and offsets are `Nat`/`Int`
mirroring Lua integer arithmetic, and every Wireshark tree/field addition
performed by the generated dissector is recorded as an `Event`.
-/

namespace MavgenWlua

/-! ## Input protocol model (mirrors the `mavparse` objects the generator reads) -/

/-- MAVEnumEntry: one entry of an enumeration (`entry.value`, `entry.name`).
Entry values are non-negative integers in the MAVLink model. -/
structure MAVEnumEntry where
  value : Nat
  name : String
deriving DecidableEq, Repr

/-- MAVEnum: an enumeration (`enum.name`, `enum.bitmask`, `enum.entry`). -/
structure MAVEnum where
  name : String
  bitmask : Bool
  entry : List MAVEnumEntry
deriving DecidableEq, Repr

/-- MAVEnumParam: a command parameter (`p.index`, `p.label`, `p.enum`,
`p.units`).  An empty label models a Python falsy `p.label`; `enum = none`
models a falsy `p.enum`. -/
structure MAVEnumParam where
  index : Nat
  label : String
  enum : Option String
  units : String
deriving DecidableEq, Repr

/-- MAVCommand: a MAV_CMD enum entry together with its parameter list
(`cmd.name`, `cmd.value`, `cmd.param`). -/
structure MAVCommand where
  name : String
  value : Nat
  param : List MAVEnumParam
deriving DecidableEq, Repr

/-- MAVField: a message field (`field.name`, `field.type`,
`field.type_length`, `field.array_length`, `field.enum`, `field.units`,
`field.display`). `array_length = 0` encodes a scalar field, as in the
source model. -/
structure MAVField where
  name : String
  type : String
  type_length : Nat
  array_length : Nat
  enum : Option String
  units : String
  display : String
deriving DecidableEq, Repr

/-! ## is_power_of_2 (mavgen_wlua.py lines 137-139) -/

/-- Source: `def is_power_of_2(n): return (n & (n-1) == 0) and n != 0`.
For `n = 0`, Python computes `0 & -1 = 0`; Lean's truncated `0 - 1 = 0`
gives `0 &&& 0 = 0` as well, and both are then rejected by `n != 0`. -/
def is_power_of_2 (n : Nat) : Bool :=
  (n &&& (n - 1) == 0) && (n != 0)

/-- Helper: the low bit of a doubled number is clear. -/
theorem testBit_two_mul_zero (a : Nat) : Nat.testBit (2 * a) 0 = false := by
  simp [Nat.testBit_zero, Nat.mul_mod_right]

/-- Helper: bit `i+1` of `2*a` is bit `i` of `a`. -/
theorem testBit_two_mul_succ (a i : Nat) :
    Nat.testBit (2 * a) (i + 1) = Nat.testBit a i := by
  rw [Nat.testBit_add_one, Nat.mul_div_cancel_left a (by norm_num)]

/-- Helper: `2*a &&& (2*a - 1) = 2 * (a &&& (a - 1))` for `a ≥ 1`:
subtracting one from an even positive number yields `2*(a-1) + 1`, and the
bitwise AND distributes over the shift. -/
theorem two_mul_and_pred (a : Nat) (ha : 0 < a) :
    (2 * a) &&& (2 * a - 1) = 2 * (a &&& (a - 1)) := by
  apply Nat.eq_of_testBit_eq
  intro i
  cases i with
  | zero =>
      rw [Nat.testBit_and, testBit_two_mul_zero, testBit_two_mul_zero]
      rfl
  | succ i =>
      have hdiv : (2 * a - 1) / 2 = a - 1 := by omega
      rw [Nat.testBit_and, testBit_two_mul_succ, testBit_two_mul_succ,
        Nat.testBit_add_one (2 * a - 1), hdiv, Nat.testBit_and]

/-- Characterisation of the source predicate `is_power_of_2`: it accepts
exactly the powers of two (which are in particular nonzero). -/
theorem is_power_of_2_iff (n : Nat) :
    is_power_of_2 n = true ↔ ∃ k, n = 2 ^ k := by
  induction n using Nat.strong_induction_on with
  | _ n ih =>
    match n, Nat.even_or_odd n with
    | 0, _ =>
        simp only [is_power_of_2, Bool.and_eq_true, beq_iff_eq, bne_iff_ne]
        constructor
        · rintro ⟨-, h⟩; exact absurd rfl h
        · rintro ⟨k, hk⟩
          have := Nat.pos_pow_of_pos k (show 0 < 2 by norm_num)
          omega
    | 1, _ =>
        constructor
        · intro _; exact ⟨0, rfl⟩
        · intro _; decide
    | (m + 2), Or.inl heven =>
        -- even n = 2*a with a ≥ 1
        obtain ⟨a, ha⟩ := heven
        have ha2 : m + 2 = 2 * a := by omega
        have hapos : 0 < a := by omega
        have halt : a < m + 2 := by omega
        rw [ha2]
        have key : is_power_of_2 (2 * a) = true ↔ is_power_of_2 a = true := by
          simp only [is_power_of_2, Bool.and_eq_true, beq_iff_eq, bne_iff_ne]
          rw [two_mul_and_pred a hapos]
          constructor
          · rintro ⟨h0, -⟩
            exact ⟨by omega, by omega⟩
          · rintro ⟨h0, h1⟩
            exact ⟨by omega, by omega⟩
        rw [key, ih a halt]
        constructor
        · rintro ⟨k, hk⟩; exact ⟨k + 1, by rw [hk, pow_succ]; ring⟩
        · rintro ⟨k, hk⟩
          match k, hk with
          | 0, hk => omega
          | (k + 1), hk => exact ⟨k, by rw [pow_succ] at hk; omega⟩
    | (m + 2), Or.inr hodd =>
        -- odd n ≥ 3: both sides are false
        obtain ⟨a, ha⟩ := hodd
        have hapos : 0 < a := by omega
        constructor
        · intro h
          exfalso
          simp only [is_power_of_2, Bool.and_eq_true, beq_iff_eq, bne_iff_ne] at h
          obtain ⟨i, hi⟩ := Nat.ne_zero_implies_bit_true (x := a) (by omega)
          have h1 : Nat.testBit (m + 2) (i + 1) = true := by
            rw [Nat.testBit_add_one, show (m + 2) / 2 = a by omega, hi]
          have h2 : Nat.testBit (m + 2 - 1) (i + 1) = true := by
            rw [Nat.testBit_add_one, show (m + 2 - 1) / 2 = a by omega, hi]
          have : Nat.testBit ((m + 2) &&& (m + 2 - 1)) (i + 1) = true := by
            rw [Nat.testBit_and, h1, h2]; rfl
          rw [h.1] at this
          simp at this
        · rintro ⟨k, hk⟩
          exfalso
          match k, hk with
          | 0, hk => omega
          | (k + 1), hk =>
            have : m + 2 = 2 * 2 ^ k := by rw [hk, pow_succ]; ring
            omega

/-! ## String primitives

Executable counterparts of the Python string operations the generator uses
(`s.endswith(t)`, `t in s`, `s.replace(a, b)`, `s.upper()`), implemented by
structural recursion over the character lists so that every definition in
this file evaluates inside the kernel. -/

/-- Prefix test on character lists. -/
def listIsPre : List Char → List Char → Bool
  | [], _ => true
  | _ :: _, [] => false
  | a :: as, b :: bs => a == b && listIsPre as bs

/-- Substring test on character lists (`pat` occurs somewhere in the second
argument), mirroring Python's `pat in s`. -/
def listContainsSub (pat : List Char) : List Char → Bool
  | [] => listIsPre pat []
  | c :: rest => listIsPre pat (c :: rest) || listContainsSub pat rest

/-- Replace-all on character lists with explicit fuel (any fuel above the
list length is exhaustive for a non-empty pattern), mirroring Python's
`s.replace(pat, repl)`. -/
def listReplaceAll (pat repl : List Char) : Nat → List Char → List Char
  | 0, l => l
  | _ + 1, [] => []
  | fuel + 1, c :: rest =>
    if listIsPre pat (c :: rest) then
      repl ++ listReplaceAll pat repl fuel ((c :: rest).drop pat.length)
    else
      c :: listReplaceAll pat repl fuel rest

/-- Python `s.endswith(t)`. -/
def strEndsWith (s suffix : String) : Bool :=
  listIsPre suffix.data.reverse s.data.reverse

/-- Python `pat in s`. -/
def strContains (s pat : String) : Bool :=
  listContainsSub pat.data s.data

/-- Python `s.replace(pat, repl)` (for a non-empty pattern). -/
def strReplace (s pat repl : String) : String :=
  if pat.data.isEmpty then s
  else String.mk (listReplaceAll pat.data repl.data (s.data.length + 1) s.data)

/-- ASCII upper-casing of one character, as Python `upper()` acts on the
ASCII type names this generator handles. -/
def charUpper (c : Char) : Char :=
  if 97 ≤ c.toNat ∧ c.toNat ≤ 122 then Char.ofNat (c.toNat - 32) else c

/-- Python `s.upper()` on ASCII strings. -/
def strToUpper (s : String) : String :=
  String.mk (s.data.map charUpper)

/-! ## Enum tables (generate_enum_table, lines 142-164; flag tables,
lines 196-207 and 256-274) -/

/-- Entries placed into the generated `enumEntryName` value-to-name lookup
(generate_enum_table): every entry except those whose name ends with the
reserved `_ENUM_END` suffix. -/
def enumTableEntries (e : MAVEnum) : List MAVEnumEntry :=
  e.entry.filter (fun en => !(strEndsWith en.name "_ENUM_END"))

/-- Entries for which `generate_flag_enum_dissector` emits a
`tree:add_le(f[name .. "_flag..."], ...)` call (lines 264-269): exactly those
passing `is_power_of_2(entry.value)` and not carrying the end-marker suffix. -/
def flagDissectorEntries (e : MAVEnum) : List MAVEnumEntry :=
  e.entry.filter (fun en => is_power_of_2 en.value && !(strEndsWith en.name "_ENUM_END"))

/-- Entries for which `generate_field_or_param` emits a boolean flag subfield
(lines 199-207): the same filter, written there as a `continue` on
`not is_power_of_2(entry.value) or entry.name.endswith("_ENUM_END")`. -/
def flagSubfieldEntries (e : MAVEnum) : List MAVEnumEntry :=
  e.entry.filter (fun en => !(!(is_power_of_2 en.value) || strEndsWith en.name "_ENUM_END"))

/-! ## Type mapper (get_field_info, lines 30-50) -/

/-- Source: `get_field_info(field)`, returning
`(mavlink_type, field_type, tvb_func, size, count)`.  The `char` branch turns
the declared array length into the string size and collapses the element
count to 1; the `int` branch builds the `ftypes.*` name by dropping `_t` and
upper-casing, and selects the little-endian unsigned/signed (64-bit) reader;
the remaining branch covers `float`/`double`. -/
def get_field_info (field : MAVField) :
    String × String × String × Nat × Nat :=
  let mavlink_type := field.type
  let size := field.type_length
  let count := if field.array_length > 0 then field.array_length else 1
  if mavlink_type = "char" then
    (mavlink_type, "ftypes.STRING", "string", count, 1)
  else if strContains mavlink_type "int" then
    (mavlink_type,
     "ftypes." ++ strToUpper (strReplace mavlink_type "_t" ""),
     "le_" ++ (if strContains mavlink_type "u" then "u" else "") ++ "int"
       ++ (if strContains mavlink_type "64" then "64" else ""),
     size, count)
  else
    (mavlink_type, "ftypes." ++ strToUpper mavlink_type, "le_" ++ mavlink_type,
     size, count)

/-- Byte ranges read by the per-field code emitted by
`generate_field_dissector` (lines 297-328): for each element index
`i < count`, one `padded(offset + foffset, fbytes)` access with
`foffset = base + i * size` and `fbytes = size`, where `(size, count)` come
from `get_field_info`. -/
def fieldReadRanges (field : MAVField) (base : Nat) : List (Nat × Nat) :=
  let info := get_field_info field
  let size := info.2.2.2.1
  let count := info.2.2.2.2
  (List.range count).map (fun i => (base + i * size, size))

/-! ## Field/parameter descriptors (generate_field_or_param, lines 167-207)
and command parameters (generate_cmd_params, lines 231-253) -/

/-- ProtoDescriptor: the data of one emitted `ProtoField.new(...)` line:
its field table name, its label, the display type shown in the label, the
`ftypes.*` constant after the enum display coercion, and the values/base
argument text. -/
structure ProtoDescriptor where
  name : String
  label : String
  displayType : String
  ftype : String
  values : String
deriving DecidableEq, Repr

/-- Core of `generate_field_or_param`: computes the emitted descriptor.
`enumRef`/`isBitmaskDisplay`/`units` stand for the `field_or_param`'s
`.enum`, `.display == "bitmask"`, and `.units` attributes.  When an enum is
referenced but absent from `enums`, the source dereferences `None`
(`enum_obj.bitmask` raises); that generation-time crash is modelled as
`none`. -/
def descriptorCore (enums : List MAVEnum) (enumRef : Option String)
    (isBitmaskDisplay : Bool) (units : String)
    (name label physical_type field_type : String) : Option ProtoDescriptor :=
  let unitstr := if units ≠ "" then " " ++ units else ""
  match enumRef with
  | some ename =>
    match enums.find? (fun e => e.name == ename) with
    | none => none
    | some eobj =>
      let values := if !eobj.bitmask then "enumEntryName." ++ ename
                    else "nil, base.HEX_DEC"
      let ftype :=
        if field_type = "ftypes.FLOAT" ∨ field_type = "ftypes.DOUBLE"
            ∨ field_type = "ftypes.INT32" then "ftypes.UINT32"
        else field_type
      some { name := name, label := label ++ " (" ++ ename ++ ")" ++ unitstr,
             displayType := ename, ftype := ftype, values := values }
  | none =>
      let values := if isBitmaskDisplay then "nil, base.HEX_DEC" else "nil"
      some { name := name,
             label := label ++ " (" ++ physical_type ++ ")" ++ unitstr,
             displayType := physical_type, ftype := field_type,
             values := values }

/-- Coordinate names for command parameter indices 5, 6, 7: the source
computes `chr(pindex + 115)`, i.e. `x`, `y`, `z`. -/
def coordName (pindex : Nat) : String :=
  String.singleton (Char.ofNat (pindex + 115))

/-- Descriptors emitted by `generate_cmd_params` for one command: for every
parameter with a non-empty label, a float-typed `cmd_<name>_param<i>`
descriptor; additionally, for indices `≥ 5`, a coordinate descriptor
`cmd_<name>_<x|y|z>` typed `int32_t`/`ftypes.INT32` for indices 5 and 6 and
`float`/`ftypes.FLOAT` for the rest. -/
def cmdParamDescs (enums : List MAVEnum) (cname : String) :
    List MAVEnumParam → List (Option ProtoDescriptor)
  | [] => []
  | p :: rest =>
    if p.label ≠ "" then
      (descriptorCore enums p.enum false p.units
          ("cmd_" ++ cname ++ "_param" ++ toString p.index)
          ("param" ++ toString p.index ++ ": " ++ p.label)
          "float" "ftypes.FLOAT")
      :: (if p.index ≥ 5 then
            [(if p.index = 5 ∨ p.index = 6 then
                descriptorCore enums p.enum false p.units
                  ("cmd_" ++ cname ++ "_" ++ coordName p.index)
                  (coordName p.index ++ ": " ++ p.label)
                  "int32_t" "ftypes.INT32"
              else
                descriptorCore enums p.enum false p.units
                  ("cmd_" ++ cname ++ "_" ++ coordName p.index)
                  (coordName p.index ++ ": " ++ p.label)
                  "float" "ftypes.FLOAT")]
          else []) ++ cmdParamDescs enums cname rest
    else cmdParamDescs enums cname rest

/-- Descriptor list emitted by `generate_cmd_params` for one command. -/
def cmd_param_descriptors (enums : List MAVEnum) (cmd : MAVCommand) :
    List (Option ProtoDescriptor) :=
  cmdParamDescs enums cmd.name cmd.param

/-- Field-variable selection of `generate_field_dissector` (lines 303-307)
for a command parameter: `_INT`-suffixed message names with parameter index
`≥ 5` select the coordinate descriptor, everything else the generic
`param<i>` descriptor.  The choice depends only on generation-time data (the
message name and the parameter index). -/
def commandFieldVar (msgName cmdName : String) (pindex : Nat) : String :=
  if strEndsWith msgName "_INT" && pindex ≥ 5 then
    "cmd_" ++ cmdName ++ "_" ++ coordName pindex
  else
    "cmd_" ++ cmdName ++ "_param" ++ toString pindex

/-! ## time_usec_decode (emitted by generate_preamble, lines 70-87) -/

/-- TimeMark: outcome of the emitted Lua `time_usec_decode` helper.
`absolute` keeps the sub-second microseconds shown by the
`string.format("%06d", value % 1000000)` part (the calendar text produced by
`os.date` depends on the host clock zone and is not modelled);
`relative` keeps the whole seconds and remaining microseconds of the
`" (%.6f s)"` rendering; `empty` is the empty-string return. -/
inductive TimeMark where
  | absolute (micros : Nat)
  | empty
  | relative (secs : Nat) (micros : Nat)
deriving DecidableEq, Repr

/-- Threshold constant: `UInt64.new(0, 0x40000)` places `0x40000` in the
high 32-bit word, i.e. `0x40000 * 2^32` microseconds (mid-2005 as a Unix
epoch time). -/
def time_usec_threshold : Nat := 0x40000 * 2 ^ 32

/-- Branch structure of the emitted `time_usec_decode(value)`: absolute
rendering strictly above the threshold, the empty string strictly below one
million, otherwise relative seconds.  The two Lua relative branches (plain
number vs `UInt64`) format the same quotient and are modelled as one.
For the integer inputs this dissector passes (64-bit microsecond counters at
most `2^50` in this branch), the double division `value / 1000000.0`
rounded at 6 fractional digits agrees exactly with the integer quotient and
remainder recorded here. -/
def time_usec_decode (value : Nat) : TimeMark :=
  if value > time_usec_threshold then
    .absolute (value % 1000000)
  else if value < 1000000 then
    .empty
  else
    .relative (value / 1000000) (value % 1000000)

/-- Left-pad a numeral to six digits, as `string.format("%06d", ·)`. -/
def pad6 (n : Nat) : String :=
  let s := toString n
  String.mk (List.replicate (6 - s.length) '0') ++ s

/-- Rendered text of a `TimeMark`, matching the string concatenations in the
emitted Lua (`""` for the empty branch, `" (<sec>.<6 digits> s)"` for the
relative branch).  The absolute branch is rendered as its locale-dependent
skeleton with the exact microsecond digits. -/
def renderTimeMark : TimeMark → String
  | .absolute micros => " (<date>." ++ pad6 micros ++ "<tz>)"
  | .empty => ""
  | .relative secs micros => " (" ++ toString secs ++ "." ++ pad6 micros ++ " s)"

/-! ## Payload padding prologue (generate_payload_dissector, lines 373-384)

The emitted Lua is, with `msgbytes` the message's fixed wire length:
```text
if (offset + msgbytes > limit) then
    padded = buffer(0, limit):bytes()
    padded:set_size(offset + msgbytes)
    padded = padded:tvb(...)
else
    padded = buffer
end
```
`ByteArray:set_size` pads with zero bytes when growing. -/

/-- Wireshark `ByteArray:set_size`: truncate or zero-extend to `n` bytes. -/
def byteArraySetSize (b : List Nat) (n : Nat) : List Nat :=
  if n ≤ b.length then b.take n
  else b ++ List.replicate (n - b.length) 0

/-- The `padded` view handed to all field reads of one emitted per-message
payload dissector. -/
def paddedView (buffer : List Nat) (limit offset msgbytes : Nat) : List Nat :=
  if offset + msgbytes > limit then
    byteArraySetSize (buffer.take limit) (offset + msgbytes)
  else
    buffer

/-- Bytes returned by a Lua `tvb(start, size)` range access on a view
(meaningful when `start + size ≤ view.length`, which the theorems establish
for every emitted read). -/
def tvbRangeBytes (view : List Nat) (start size : Nat) : List Nat :=
  (view.drop start).take size

/-- The `limit` argument computed by the framing loop before dispatching a
payload dissector (lines 575-585): `buffer:len() - 2`, lowered to
`offset + declared length` when that is strictly smaller. -/
def payloadLimit (bufLen offset declaredLen : Nat) : Nat :=
  if offset + declaredLen < bufLen - 2 then offset + declaredLen else bufLen - 2

/-! ## Packet framing loop (emitted by generate_packet_dis, lines 429-636)

The model is a step-for-step translation of the emitted
`mavlink_proto.dissector(buffer, pinfo, tree)`.  Each Wireshark tree/field
addition that consumes a byte range of the input buffer is recorded as an
`Event`.  Lua tvb range constructions `buffer(start, size)` raise an error
when the range is negative or extends past the buffer; such a construction
is recorded as a single `err` event that ends the run (the Lua error aborts
the dissector call at that point).  Column/info text and the per-packet
subtree creation carry no byte ranges and are not recorded, except for the
malformed-packet expert annotation of the unknown-message branch, recorded
as `expertUnknown`. -/

/-- Event: one range-consuming addition performed by the generated
dissector.  `rawpayload` covers both `f.rawpayload` additions (the
unknown-span flushes of the scanning loop and the unknown-message-type
fallback); `rawheader` is the incomplete-header fallback; `header` is the
6- or 10-byte header subtree; `payload` is the `f.payload` range handed to a
registered per-message dissector. -/
inductive Event where
  | rawpayload (start size : Nat)
  | rawheader (start size : Nat)
  | header (start size : Nat)
  | payload (msgid start size : Nat)
  | expertUnknown
  | crc (start : Nat)
  | signatureLink (start : Nat)
  | signatureTime (start : Nat)
  | signatureSignature (start : Nat)
  | err
deriving DecidableEq, Repr

/-- Magic bytes present in the emitted `protocolVersions` table. -/
def isMagic (v : Nat) : Bool :=
  v == 0xfd || v == 0xfe || v == 0x55

/-- ScanOut: result of the inner resynchronisation loop (`while (true)`,
lines 447-478). `exhausted` is the `return` path taken when the buffer ends
inside the loop (with the events it adds); `found` carries the version byte,
the offset where it was found, and the pending `unknownFrameBeginOffset`. -/
inductive ScanOut where
  | exhausted (events : List Event)
  | found (version offset ufbo : Nat)
deriving DecidableEq, Repr

/-- Inner scanning loop.  `ufbo` is the Lua global
`unknownFrameBeginOffset`; the source records the begin offset of an unknown
span only when `ufbo == 0`.  Callers supply `fuel ≥ buf.length - offset` and
`offset < buf.length`; the fuel-out branch is unreachable then. -/
def scanLoop (buf : List Nat) : Nat → Nat → Nat → ScanOut
  | 0, _, _ => .exhausted [.err]
  | fuel + 1, offset, ufbo =>
    let version := buf.getD offset 0
    if isMagic version then
      .found version offset ufbo
    else
      let ufbo := if ufbo = 0 then offset else ufbo
      let offset := offset + 1
      if offset < buf.length then
        scanLoop buf fuel offset ufbo
      else if ufbo ≠ 0 then
        .exhausted [.rawpayload ufbo (offset - ufbo)]
      else
        .exhausted []

/-- HeaderOut: outcome of the `HEADER` section (lines 492-566): events,
the offset after the section, and the `msgid` / `length` /
`incompatibility_flag` locals (`none` models a Lua `nil`). -/
structure HeaderOut where
  events : List Event
  offset : Nat
  msgid : Option Nat
  length : Option Nat
  incompat : Option Nat
  err : Bool
deriving DecidableEq, Repr

/-- Little-endian 3-byte read, as `buffer(offset,3):le_uint()`. -/
def leUint3 (buf : List Nat) (offset : Nat) : Nat :=
  buf.getD offset 0 + 256 * buf.getD (offset + 1) 0
    + 65536 * buf.getD (offset + 2) 0

/-- HEADER section.  For version `0xfe` a 6-byte legacy header is decoded
when `buffer:len() - 2 - offset > 6`, otherwise the remaining
`buffer:len() - 2 - offset` bytes are added as `f.rawheader`; version `0xfd`
is identical with a 10-byte header, and additionally records the
incompatibility and 3-byte message id fields; any other version (0x55)
falls through with no action.  A negative raw-header size is a Lua tvb
error. -/
def headerPhase (buf : List Nat) (offset : Nat) (version : Nat) : HeaderOut :=
  let len : Int := buf.length
  if version = 0xfe then
    if len - 2 - offset > 6 then
      { events := [.header offset 6], offset := offset + 6,
        msgid := some (buf.getD (offset + 5) 0),
        length := some (buf.getD (offset + 1) 0),
        incompat := none, err := false }
    else
      let hsize : Int := len - 2 - offset
      if hsize < 0 then
        { events := [.err], offset := offset, msgid := none, length := none,
          incompat := none, err := true }
      else
        { events := [.rawheader offset hsize.toNat],
          offset := offset + hsize.toNat, msgid := none, length := none,
          incompat := none, err := false }
  else if version = 0xfd then
    if len - 2 - offset > 10 then
      { events := [.header offset 10], offset := offset + 10,
        msgid := some (leUint3 buf (offset + 7)),
        length := some (buf.getD (offset + 1) 0),
        incompat := some (buf.getD (offset + 2) 0), err := false }
    else
      let hsize : Int := len - 2 - offset
      if hsize < 0 then
        { events := [.err], offset := offset, msgid := none, length := none,
          incompat := none, err := true }
      else
        { events := [.rawheader offset hsize.toNat],
          offset := offset + hsize.toNat, msgid := none, length := none,
          incompat := none, err := false }
  else
    { events := [], offset := offset, msgid := none, length := none,
      incompat := none, err := false }

/-- BODY section (lines 569-604).  The dispatch table lookup
`payload_fns["payload_" .. tostring(msgid)]` is modelled by the predicate
`fns` on message ids; a `nil` msgid (truncated header) never hits the table.
The unknown-type branch adds the expert annotation and an `f.rawpayload`
range of `buffer:len() - 2 - offset` bytes; the known branch adds the
`f.payload` range `buffer(offset, limit - offset)` and advances to
`limit`. -/
def bodyPhase (fns : Nat → Bool) (buf : List Nat) (offset : Nat)
    (msgid : Option Nat) (length : Option Nat) : List Event × Nat × Bool :=
  let len : Int := buf.length
  let lengthVal : Nat := length.getD 0
  let limit : Int :=
    if (offset : Int) + lengthVal < len - 2 then (offset : Int) + lengthVal
    else len - 2
  let known := match msgid with
    | some m => fns m
    | none => false
  if known then
    if limit - offset < 0 then ([.err], offset, true)
    else
      ([.payload (msgid.getD 0) offset (limit - (offset : Int)).toNat],
       limit.toNat, false)
  else
    let size : Int := len - 2 - offset
    if size < 0 then ([.err], offset, true)
    else
      ([.expertUnknown, .rawpayload offset size.toNat],
       offset + size.toNat, false)

/-- CRC section (lines 606-610): always reads `buffer(offset, 2)`. -/
def crcPhase (buf : List Nat) (offset : Nat) : List Event × Nat × Bool :=
  if offset + 2 ≤ buf.length then ([.crc offset], offset + 2, false)
  else ([.err], offset, true)

/-- SIGNATURE section (lines 612-630): consumed only under
`version == 0xfd and incompatibility_flag == 0x01` (`nil` compares unequal),
reading a 1-byte link id, a 6-byte time, and a 6-byte signature, each a
bounds-checked tvb range. -/
def sigPhase (buf : List Nat) (offset : Nat) (version : Nat)
    (incompat : Option Nat) : List Event × Nat × Bool :=
  if version = 0xfd ∧ incompat = some 1 then
    if offset + 1 ≤ buf.length then
      if offset + 7 ≤ buf.length then
        if offset + 13 ≤ buf.length then
          ([.signatureLink offset, .signatureTime (offset + 1),
            .signatureSignature (offset + 7)], offset + 13, false)
        else ([.signatureLink offset, .signatureTime (offset + 1), .err],
              offset + 7, true)
      else ([.signatureLink offset, .err], offset + 1, true)
    else ([.err], offset, true)
  else ([], offset, false)

/-- IterOut: one pass of the outer `while (offset < buffer:len())` loop.
`ret` are the paths that end the whole dissector call (the scanning
`return`, the post-scan flush-and-`break`, and Lua range errors); `cont`
carries the events of a decoded packet and the state for the next pass. -/
inductive IterOut where
  | ret (events : List Event)
  | cont (events : List Event) (offset ufbo msgCount : Nat)
deriving DecidableEq, Repr

/-- Processing of one packet after the scanning loop has stopped at a magic
byte (lines 480-630): the flush-and-`break` of a pending unknown span
(`unknownFrameBeginOffset ~= 0`; the source comment says "jump to next
loop", but `break` leaves the outer loop, ending the dissector call),
followed by the HEADER / BODY / CRC / SIGNATURE sections. -/
def afterScan (fns : Nat → Bool) (buf : List Nat)
    (version offset ufbo msgCount : Nat) : IterOut :=
  if ufbo ≠ 0 then
    .ret [.rawpayload ufbo (offset - ufbo)]
  else
    let h := headerPhase buf offset version
    if h.err then .ret h.events
    else
      let b := bodyPhase fns buf h.offset h.msgid h.length
      if b.2.2 then .ret (h.events ++ b.1)
      else
        let c := crcPhase buf b.2.1
        if c.2.2 then .ret (h.events ++ b.1 ++ c.1)
        else
          let s := sigPhase buf c.2.1 version h.incompat
          if s.2.2 then .ret (h.events ++ b.1 ++ c.1 ++ s.1)
          else .cont (h.events ++ b.1 ++ c.1 ++ s.1) s.2.1 0 msgCount

/-- One pass of the outer loop, assuming `offset < buf.length`: the message
counter is incremented, the scanning loop runs, and on a found magic byte
the remaining sections run via `afterScan`. -/
def runIteration (fns : Nat → Bool) (buf : List Nat)
    (offset ufbo msgCount : Nat) : IterOut :=
  match scanLoop buf (buf.length - offset) offset ufbo with
  | .exhausted ev => .ret ev
  | .found version offset2 ufbo2 =>
    afterScan fns buf version offset2 ufbo2 (msgCount + 1)

/-- Outer loop with fuel.  Every continuing pass consumes the 2 CRC bytes,
so `buf.length + 1` units of fuel are always sufficient; the fuel-out branch
is unreachable from `dissector`. -/
def dissectorLoop (fns : Nat → Bool) (buf : List Nat) :
    Nat → Nat → Nat → Nat → List Event
  | 0, _, _, _ => [.err]
  | fuel + 1, offset, ufbo, msgCount =>
    if offset < buf.length then
      match runIteration fns buf offset ufbo msgCount with
      | .ret ev => ev
      | .cont ev offset' ufbo' msgCount' =>
        ev ++ dissectorLoop fns buf fuel offset' ufbo' msgCount'
    else []

/-- The generated `mavlink_proto.dissector` on a fresh buffer:
`unknownFrameBeginOffset` starts at 0 (its initial value; it is also reset
to 0 on every path that leaves it set), offset 0, message count 0. -/
def dissector (fns : Nat → Bool) (buf : List Nat) : List Event :=
  dissectorLoop fns buf (buf.length + 1) 0 0 0

/-! ## Theorems -/

/-- C6: for every bitmask EnumType, the generated flag set contains exactly
those entries whose value is a nonzero power of two and whose name does not
end with the reserved `_ENUM_END` suffix, for every declaration order (the
characterisation below is purely membership-based, hence independent of the
order of `e.entry`); the flag-subfield filter of `generate_field_or_param`
agrees with the flag-dissector filter; and entries with value 0 or composite
values stay out of the flag set while remaining in the value-to-name
lookup. -/
theorem c6_flag_set (e : MAVEnum) (en : MAVEnumEntry) (hb : e.bitmask = true) :
    (en ∈ flagDissectorEntries e ↔
      en ∈ e.entry ∧ (∃ k, en.value = 2 ^ k)
        ∧ strEndsWith en.name "_ENUM_END" = false)
  ∧ flagSubfieldEntries e = flagDissectorEntries e
  ∧ ((en ∈ e.entry ∧ ¬(∃ k, en.value = 2 ^ k)
        ∧ strEndsWith en.name "_ENUM_END" = false) →
      en ∉ flagDissectorEntries e ∧ en ∈ enumTableEntries e) := by
  have hmem : en ∈ flagDissectorEntries e ↔
      en ∈ e.entry ∧ (∃ k, en.value = 2 ^ k)
        ∧ strEndsWith en.name "_ENUM_END" = false := by
    unfold flagDissectorEntries
    rw [List.mem_filter]
    constructor
    · rintro ⟨h1, h2⟩
      simp only [Bool.and_eq_true, Bool.not_eq_true'] at h2
      exact ⟨h1, (is_power_of_2_iff en.value).mp h2.1, h2.2⟩
    · rintro ⟨h1, h2, h3⟩
      refine ⟨h1, ?_⟩
      simp only [Bool.and_eq_true, Bool.not_eq_true']
      exact ⟨(is_power_of_2_iff en.value).mpr h2, h3⟩
  refine ⟨hmem, ?_, ?_⟩
  · unfold flagSubfieldEntries flagDissectorEntries
    have : (fun en : MAVEnumEntry =>
        !(!is_power_of_2 en.value || strEndsWith en.name "_ENUM_END")) =
        (fun en : MAVEnumEntry =>
        is_power_of_2 en.value && !strEndsWith en.name "_ENUM_END") := by
      funext x
      cases h1 : is_power_of_2 x.value <;>
        cases h2 : strEndsWith x.name "_ENUM_END" <;> simp [h1, h2]
    rw [this]
  · rintro ⟨h1, h2, h3⟩
    constructor
    · intro hmem2
      exact h2 (hmem.mp hmem2).2.1
    · unfold enumTableEntries
      rw [List.mem_filter]
      exact ⟨h1, by simp [h3]⟩

/-- Witness for C6: in a concrete bitmask enum, the power-of-two entry of
value 2 is in the flag set; and the composite entry of value 3 is excluded
from the flag set yet kept in the name lookup. -/
theorem c6_flag_set_witness :
    ((⟨2, "X_B"⟩ : MAVEnumEntry) ∈ flagDissectorEntries
      ⟨"X", true, [⟨0, "X_NONE"⟩, ⟨1, "X_A"⟩, ⟨2, "X_B"⟩, ⟨3, "X_AB"⟩,
        ⟨4, "X_ENUM_END"⟩]⟩)
  ∧ ((⟨3, "X_AB"⟩ : MAVEnumEntry) ∉ flagDissectorEntries
      ⟨"X", true, [⟨0, "X_NONE"⟩, ⟨1, "X_A"⟩, ⟨2, "X_B"⟩, ⟨3, "X_AB"⟩,
        ⟨4, "X_ENUM_END"⟩]⟩
      ∧ (⟨3, "X_AB"⟩ : MAVEnumEntry) ∈ enumTableEntries
      ⟨"X", true, [⟨0, "X_NONE"⟩, ⟨1, "X_A"⟩, ⟨2, "X_B"⟩, ⟨3, "X_AB"⟩,
        ⟨4, "X_ENUM_END"⟩]⟩) :=
  ⟨(c6_flag_set _ ⟨2, "X_B"⟩ rfl).1.mpr ⟨by decide, ⟨1, rfl⟩, by decide⟩,
   (c6_flag_set _ ⟨3, "X_AB"⟩ rfl).2.2
     ⟨by decide, by rintro ⟨k, hk⟩; rcases k with - | - | k <;> simp_all <;> omega,
      by decide⟩⟩

/-- C8: the timestamp rule of the emitted `time_usec_decode`: strictly above
the threshold `0x40000 * 2^32` microseconds the value renders as an absolute
calendar time with six sub-second digits; at or below the threshold and
below 1,000,000 it renders as the empty string (so 500,000 gives the empty
mark); otherwise it renders as relative seconds with six fractional digits
(so 2,000,000 renders " (2.000000 s)"). -/
theorem c8_timestamp (v : Nat) :
    (time_usec_threshold < v → time_usec_decode v = .absolute (v % 1000000))
  ∧ (v ≤ time_usec_threshold → v < 1000000 → time_usec_decode v = .empty)
  ∧ (v ≤ time_usec_threshold → 1000000 ≤ v →
      time_usec_decode v = .relative (v / 1000000) (v % 1000000))
  ∧ time_usec_decode 500000 = .empty
  ∧ renderTimeMark (time_usec_decode 2000000) = " (2.000000 s)"
  ∧ time_usec_threshold = 0x40000 * 2 ^ 32 := by
  refine ⟨?_, ?_, ?_, by decide, by decide, rfl⟩
  · intro h
    unfold time_usec_decode
    rw [if_pos h]
  · intro h1 h2
    unfold time_usec_decode
    rw [if_neg (by omega), if_pos h2]
  · intro h1 h2
    unfold time_usec_decode
    rw [if_neg (by omega), if_neg (by omega)]

/-- Witness for C8: concrete instantiations of the three branches. -/
theorem c8_timestamp_witness :
    time_usec_decode (2 ^ 51) = .absolute (2 ^ 51 % 1000000)
  ∧ time_usec_decode 999999 = .empty
  ∧ time_usec_decode 2000000 = .relative 2 0 :=
  ⟨(c8_timestamp (2 ^ 51)).1 (by norm_num [time_usec_threshold]),
   (c8_timestamp 999999).2.1 (by norm_num [time_usec_threshold]) (by norm_num),
   by
     have h := (c8_timestamp 2000000).2.2.1
       (by norm_num [time_usec_threshold]) (by norm_num)
     simpa using h⟩

/-- C9: the type mapper collapses `char` arrays to one string read of the
declared length (element count 1, wire width `n`, string descriptor), while
every other type with array length `n ≥ 1` produces `n` independent reads at
`base + i * element_width`. -/
theorem c9_type_mapper (f : MAVField) (base n : Nat) :
    (f.type = "char" → f.array_length = n → 0 < n →
      get_field_info f = ("char", "ftypes.STRING", "string", n, 1)
      ∧ fieldReadRanges f base = [(base, n)])
  ∧ (f.type ≠ "char" → f.array_length = n → 0 < n →
      fieldReadRanges f base =
        (List.range n).map (fun i => (base + i * f.type_length, f.type_length))) := by
  constructor
  · intro hc hn hpos
    subst hn
    have hinfo : get_field_info f =
        ("char", "ftypes.STRING", "string", f.array_length, 1) := by
      unfold get_field_info
      rw [if_pos hc, if_pos hpos]
      rw [hc]
    refine ⟨hinfo, ?_⟩
    unfold fieldReadRanges
    rw [hinfo]
    show List.map (fun i => (base + i * f.array_length, f.array_length))
        (List.range 1) = [(base, f.array_length)]
    simp [List.range_succ]
  · intro hc hn hpos
    subst hn
    have hinfo : (get_field_info f).2.2.2.1 = f.type_length
        ∧ (get_field_info f).2.2.2.2 = f.array_length := by
      unfold get_field_info
      rw [if_neg hc, if_pos hpos]
      split <;> exact ⟨rfl, rfl⟩
    unfold fieldReadRanges
    simp only [hinfo.1, hinfo.2]

/-- Witness for C9: a 10-byte `char` field reads once at its base offset;
a 3-element `uint16_t` array reads three times, 2 bytes each. -/
theorem c9_type_mapper_witness :
    (get_field_info ⟨"text", "char", 1, 10, none, "", ""⟩ =
        ("char", "ftypes.STRING", "string", 10, 1)
      ∧ fieldReadRanges ⟨"text", "char", 1, 10, none, "", ""⟩ 4 = [(4, 10)])
  ∧ fieldReadRanges ⟨"vibration", "uint16_t", 2, 3, none, "", ""⟩ 6 =
      [(6, 2), (8, 2), (10, 2)] :=
  ⟨(c9_type_mapper ⟨"text", "char", 1, 10, none, "", ""⟩ 4 10).1 rfl rfl
      (by norm_num),
   by
     have h := (c9_type_mapper ⟨"vibration", "uint16_t", 2, 3, none, "", ""⟩ 6 3).2
       (by decide) rfl (by norm_num)
     simpa using h⟩

/-- Helper: every labelled parameter contributes its generic descriptor to
the `generate_cmd_params` output, and (for indices `≥ 5`) also its
coordinate descriptor. -/
theorem cmdParamDescs_mem (enums : List MAVEnum) (cname : String)
    (ps : List MAVEnumParam) (p : MAVEnumParam) (hp : p ∈ ps)
    (hl : p.label ≠ "") :
    (descriptorCore enums p.enum false p.units
        ("cmd_" ++ cname ++ "_param" ++ toString p.index)
        ("param" ++ toString p.index ++ ": " ++ p.label)
        "float" "ftypes.FLOAT") ∈ cmdParamDescs enums cname ps
  ∧ (p.index ≥ 5 →
      (if p.index = 5 ∨ p.index = 6 then
          descriptorCore enums p.enum false p.units
            ("cmd_" ++ cname ++ "_" ++ coordName p.index)
            (coordName p.index ++ ": " ++ p.label) "int32_t" "ftypes.INT32"
        else
          descriptorCore enums p.enum false p.units
            ("cmd_" ++ cname ++ "_" ++ coordName p.index)
            (coordName p.index ++ ": " ++ p.label) "float" "ftypes.FLOAT")
        ∈ cmdParamDescs enums cname ps) := by
  induction ps with
  | nil => cases hp
  | cons q rest ih =>
    rcases List.mem_cons.mp hp with h | h
    · subst h
      rw [cmdParamDescs, if_pos hl]
      constructor
      · exact List.mem_cons_self _ _
      · intro h5
        rw [if_pos h5]
        refine List.mem_cons_of_mem _ (List.mem_append_left _ ?_)
        split <;> exact List.mem_singleton_self _
    · have hrec := ih h
      rw [cmdParamDescs]
      by_cases hq : q.label ≠ ""
      · rw [if_pos hq]
        exact ⟨List.mem_cons_of_mem _ (List.mem_append_right _ hrec.1),
          fun h5 => List.mem_cons_of_mem _
            (List.mem_append_right _ (hrec.2 h5))⟩
      · rw [if_neg hq]
        exact hrec

/-- C7: for a known command with a labelled parameter at index 5 (no enum
annotation), `generate_cmd_params` emits both the float descriptor
`cmd_<name>_param5` and the signed-32-bit descriptor `cmd_<name>_x`; the
field-variable choice of `generate_field_dissector` picks the `_x`
(int32) descriptor exactly for `_INT`-suffixed message names and the
`_param5` (float) descriptor for `COMMAND_LONG`; index 7 stays float in
both variants; and the wire read operation for the physical types involved
is the signed 32-bit little-endian read for `int32_t` versus the float read
for `float`.  The selection is a function of generation-time data only. -/
theorem c7_command_param_slots (enums : List MAVEnum) (cmd : MAVCommand)
    (p : MAVEnumParam) (hp : p ∈ cmd.param) (hl : p.label ≠ "")
    (hi : p.index = 5) (he : p.enum = none) :
    (∃ d : ProtoDescriptor, some d ∈ cmd_param_descriptors enums cmd
      ∧ d.name = "cmd_" ++ cmd.name ++ "_" ++ coordName 5
      ∧ d.displayType = "int32_t" ∧ d.ftype = "ftypes.INT32"
      ∧ commandFieldVar "COMMAND_INT" cmd.name 5 = d.name)
  ∧ (∃ d : ProtoDescriptor, some d ∈ cmd_param_descriptors enums cmd
      ∧ d.name = "cmd_" ++ cmd.name ++ "_param" ++ toString (5 : Nat)
      ∧ d.displayType = "float" ∧ d.ftype = "ftypes.FLOAT"
      ∧ commandFieldVar "COMMAND_LONG" cmd.name 5 = d.name)
  ∧ coordName 5 = "x" ∧ coordName 6 = "y" ∧ coordName 7 = "z"
  ∧ (∀ q ∈ cmd.param, q.label ≠ "" → q.index = 7 → q.enum = none →
      ∃ d : ProtoDescriptor, some d ∈ cmd_param_descriptors enums cmd
        ∧ d.name = "cmd_" ++ cmd.name ++ "_" ++ coordName 7
        ∧ d.displayType = "float" ∧ d.ftype = "ftypes.FLOAT"
        ∧ commandFieldVar "COMMAND_INT" cmd.name 7 = d.name)
  ∧ commandFieldVar "COMMAND_LONG" cmd.name 7 =
      "cmd_" ++ cmd.name ++ "_param" ++ toString (7 : Nat)
  ∧ (∀ fld : MAVField, fld.type = "int32_t" →
      (get_field_info fld).2.2.1 = "le_int")
  ∧ (∀ fld : MAVField, fld.type = "float" →
      (get_field_info fld).2.2.1 = "le_float") := by
  have h5 := cmdParamDescs_mem enums cmd.name cmd.param p hp hl
  refine ⟨?_, ?_, by decide, by decide, by decide, ?_, rfl, ?_, ?_⟩
  · have hm := h5.2 (by omega)
    rw [if_pos (by omega)] at hm
    rw [hi, he] at hm
    exact ⟨_, hm, rfl, rfl, rfl, rfl⟩
  · have hm := h5.1
    rw [hi, he] at hm
    exact ⟨_, hm, rfl, rfl, rfl, rfl⟩
  · intro q hq hql hqi hqe
    have h7 := cmdParamDescs_mem enums cmd.name cmd.param q hq hql
    have hm := h7.2 (by omega)
    rw [if_neg (by omega)] at hm
    rw [hqi, hqe] at hm
    exact ⟨_, hm, rfl, rfl, rfl, rfl⟩
  · intro fld hft
    unfold get_field_info
    rw [hft]
    rfl
  · intro fld hft
    unfold get_field_info
    rw [hft]
    rfl

/-- Witness for C7: a concrete command with labelled parameters at indices
5 and 7 yields the `cmd_NAV_x` int32 descriptor and both field-variable
selections. -/
theorem c7_command_param_slots_witness :
    (∃ d : ProtoDescriptor, some d ∈ cmd_param_descriptors []
          ⟨"NAV", 16, [⟨5, "Lat", none, ""⟩, ⟨7, "Alt", none, ""⟩]⟩
      ∧ d.name = "cmd_" ++ "NAV" ++ "_" ++ coordName 5
      ∧ d.displayType = "int32_t" ∧ d.ftype = "ftypes.INT32"
      ∧ commandFieldVar "COMMAND_INT" "NAV" 5 = d.name)
  ∧ (∃ d : ProtoDescriptor, some d ∈ cmd_param_descriptors []
          ⟨"NAV", 16, [⟨5, "Lat", none, ""⟩, ⟨7, "Alt", none, ""⟩]⟩
      ∧ d.name = "cmd_" ++ "NAV" ++ "_param" ++ toString (5 : Nat)
      ∧ d.displayType = "float" ∧ d.ftype = "ftypes.FLOAT"
      ∧ commandFieldVar "COMMAND_LONG" "NAV" 5 = d.name) := by
  have h := c7_command_param_slots []
      ⟨"NAV", 16, [⟨5, "Lat", none, ""⟩, ⟨7, "Alt", none, ""⟩]⟩
      ⟨5, "Lat", none, ""⟩ (by decide) (by decide) rfl rfl
  exact ⟨h.1, h.2.1⟩

/-- Helper: indexing a `tvb(start, size)` range reads the underlying view at
`start + p`. -/
theorem tvbRangeBytes_getD (view : List Nat) (s n p : Nat) (hp : p < n) :
    (tvbRangeBytes view s n).getD p 0 = view.getD (s + p) 0 := by
  unfold tvbRangeBytes
  rw [List.getD_eq_getElem?_getD, List.getD_eq_getElem?_getD,
    List.getElem?_take_of_lt hp, List.getElem?_drop]

/-- C2: when the declared payload length exceeds the bytes available before
the 2 checksum bytes, the framing loop clamps the limit to
`buffer length - 2`, and the emitted padding prologue yields a view in which
every fixed-offset field read (within the message's wire length) stays in
bounds, returns the genuine byte for positions below the limit and zero
beyond it, and — being built from `buffer(0, limit)` — never consults the
buffer past the limit. -/
theorem c2_truncated_payload (buf : List Nat)
    (offset declaredLen msgbytes foffset fbytes : Nat)
    (hb : 2 ≤ buf.length) (ho : offset ≤ buf.length - 2)
    (hd : buf.length - 2 - offset < declaredLen)
    (hf : foffset + fbytes ≤ msgbytes) :
    payloadLimit buf.length offset declaredLen = buf.length - 2
  ∧ offset + foffset + fbytes ≤
      (paddedView buf (buf.length - 2) offset msgbytes).length
  ∧ (∀ p, p < fbytes →
      (tvbRangeBytes (paddedView buf (buf.length - 2) offset msgbytes)
          (offset + foffset) fbytes).getD p 0 =
        if offset + foffset + p < buf.length - 2
        then buf.getD (offset + foffset + p) 0 else 0)
  ∧ (buf.length - 2 < offset + msgbytes →
      paddedView buf (buf.length - 2) offset msgbytes =
        buf.take (buf.length - 2)
          ++ List.replicate (offset + msgbytes - (buf.length - 2)) 0)
  ∧ (offset + msgbytes ≤ buf.length - 2 →
      paddedView buf (buf.length - 2) offset msgbytes = buf
      ∧ offset + foffset + fbytes ≤ buf.length - 2) := by
  have hlim : payloadLimit buf.length offset declaredLen = buf.length - 2 := by
    unfold payloadLimit
    rw [if_neg (by omega)]
  have htake : (buf.take (buf.length - 2)).length = buf.length - 2 := by
    rw [List.length_take]
    omega
  by_cases hpad : offset + msgbytes > buf.length - 2
  · have hview : paddedView buf (buf.length - 2) offset msgbytes =
        buf.take (buf.length - 2)
          ++ List.replicate (offset + msgbytes - (buf.length - 2)) 0 := by
      unfold paddedView byteArraySetSize
      rw [if_pos hpad, if_neg (by omega), htake]
    have hlen : (paddedView buf (buf.length - 2) offset msgbytes).length =
        offset + msgbytes := by
      rw [hview, List.length_append, htake, List.length_replicate]
      omega
    refine ⟨hlim, by omega, ?_, fun _ => hview, fun h => absurd h (by omega)⟩
    intro p hp
    rw [tvbRangeBytes_getD _ _ _ _ hp, hview,
      List.getD_eq_getElem?_getD]
    by_cases hq : offset + foffset + p < buf.length - 2
    · rw [if_pos hq, List.getElem?_append_left (by omega),
        List.getElem?_take_of_lt hq, List.getD_eq_getElem?_getD]
    · rw [if_neg hq, List.getElem?_append_right (by omega)]
      rw [htake, List.getElem?_replicate, if_pos (by omega)]
      rfl
  · have hview : paddedView buf (buf.length - 2) offset msgbytes = buf := by
      unfold paddedView
      rw [if_neg hpad]
    refine ⟨hlim, by rw [hview]; omega, ?_, fun h => absurd h (by omega),
      fun _ => ⟨hview, by omega⟩⟩
    intro p hp
    rw [tvbRangeBytes_getD _ _ _ _ hp, hview, if_pos (by omega)]

/-- Witness for C2: a 4-byte capture (limit 2) with declared length 5 and a
3-byte message: the field read at offsets 1-2 returns the genuine second
byte followed by a zero pad byte. -/
theorem c2_truncated_payload_witness :
    payloadLimit 4 0 5 = 2
  ∧ tvbRangeBytes (paddedView [171, 205, 1, 2] 2 0 3) 1 2 = [205, 0] :=
  ⟨(c2_truncated_payload [171, 205, 1, 2] 0 5 3 1 2 (by norm_num)
      (by norm_num) (by norm_num) (by norm_num)).1,
   by decide⟩

/-- C1: code bug in the scanning resync of the framing loop.  On the buffer
`[1, 1, 1]` followed by a complete, valid legacy packet whose message id 5
is registered, the dissector emits a single raw range of length 2 starting
at offset 1 — not a length-3 range at offset 0 — and then stops without
decoding the packet (the flush branch executes `break`, despite its "jump to
next loop" comment; and the `unknownFrameBeginOffset == 0` sentinel never
records offset 0).  The second conjunct shows the very same packet decodes
fully when the garbage prefix is absent. -/
theorem c1_resync_flush_bug :
    dissector (fun m => m == 5) [1, 1, 1, 0xFE, 1, 0, 0, 0, 5, 9, 0, 0] =
      [.rawpayload 1 2]
  ∧ dissector (fun m => m == 5) [0xFE, 1, 0, 0, 0, 5, 9, 0, 0] =
      [.header 0 6, .payload 5 6 1, .crc 7] :=
  ⟨by decide, by decide⟩

/-- Counterexample to C3 as stated: a current-variant (0xFD) packet whose
incompatibility-flags byte is 0x03 — bit 0 set together with bit 1 — is
decoded without consuming any signature block, because the emitted check is
an equality test against 0x01, not a bit-0 test. -/
theorem c3_counterexample_incompat_3 :
    dissector (fun m => m == 7) [0xFD, 1, 3, 0, 0, 0, 0, 7, 0, 0, 0x42, 0, 0] =
      [.header 0 10, .payload 7 10 1, .crc 11]
  ∧ ∀ s, Event.signatureLink s ∉
      dissector (fun m => m == 7) [0xFD, 1, 3, 0, 0, 0, 0, 7, 0, 0, 0x42, 0, 0] := by
  refine ⟨by decide, ?_⟩
  intro s hs
  rw [show dissector (fun m => m == 7)
      [0xFD, 1, 3, 0, 0, 0, 0, 7, 0, 0, 0x42, 0, 0] =
      [.header 0 10, .payload 7 10 1, .crc 11] by decide] at hs
  simp at hs

/-- Counterexample to C4 as stated: an 8-byte buffer holding a legacy magic,
a complete 6-byte header and the 2 checksum bytes — exactly `header_size`
bytes remain before the checksum — is not decoded as a header: the emitted
gate is the strict comparison `buffer:len() - 2 - offset > 6`, so the 6
bytes are emitted as a raw incomplete-header range instead. -/
theorem c4_counterexample_exact_fit :
    dissector (fun _ => true) [0xFE, 0, 0, 0, 0, 5, 0, 0] =
      [.rawheader 0 6, .expertUnknown, .rawpayload 6 0, .crc 6]
  ∧ ∀ s sz, Event.header s sz ∉
      dissector (fun _ => true) [0xFE, 0, 0, 0, 0, 5, 0, 0] := by
  refine ⟨by decide, ?_⟩
  intro s sz hs
  rw [show dissector (fun _ => true) [0xFE, 0, 0, 0, 0, 5, 0, 0] =
      [.rawheader 0 6, .expertUnknown, .rawpayload 6 0, .crc 6] by decide] at hs
  simp at hs

/-- Counterexample to C5 as stated: a well-formed legacy header with
declared payload length 0 and unregistered message id 99, followed by one
extra byte and the 2 checksum bytes.  The claim requires a raw payload range
covering exactly `[payload_start, limit) = [6, 6)` (empty); the code instead
emits the range `[6, buffer length - 2) = [6, 7)` of size 1. -/
theorem c5_counterexample_swallow :
    dissector (fun _ => false) [0xFE, 0, 0, 0, 0, 99, 7, 0, 0] =
      [.header 0 6, .expertUnknown, .rawpayload 6 1, .crc 7]
  ∧ Event.rawpayload 6 0 ∉
      dissector (fun _ => false) [0xFE, 0, 0, 0, 0, 99, 7, 0, 0] := by
  refine ⟨by decide, ?_⟩
  intro hs
  rw [show dissector (fun _ => false) [0xFE, 0, 0, 0, 0, 99, 7, 0, 0] =
      [.header 0 6, .expertUnknown, .rawpayload 6 1, .crc 7] by decide] at hs
  simp at hs

/-- C3 (amended): for every decoded packet with the full signature block in
bounds, the trailer signature block is consumed if and only if the header is
the 10-byte current variant (0xFD) AND the incompatibility-flags byte equals
exactly 0x01; a composite value with bit 0 set (such as 0x03) does not
trigger consumption, a non-0xFD version never consumes a signature, and the
legacy header never even produces an incompatibility value. -/
theorem c3_amended_signature_rule :
    (∀ (buf : List Nat) (offset version : Nat) (inc : Option Nat),
      offset + 13 ≤ buf.length →
      ((sigPhase buf offset version inc).1 ≠ [] ↔
        version = 0xfd ∧ inc = some 1))
  ∧ (∀ (buf : List Nat) (offset version : Nat) (inc : Option Nat),
      version ≠ 0xfd → sigPhase buf offset version inc = ([], offset, false))
  ∧ (∀ (buf : List Nat) (offset : Nat),
      (headerPhase buf offset 0xfe).incompat = none)
  ∧ (∀ (buf : List Nat) (offset : Nat),
      offset + 13 ≤ buf.length →
      sigPhase buf offset 0xfd (some 1) =
        ([.signatureLink offset, .signatureTime (offset + 1),
          .signatureSignature (offset + 7)], offset + 13, false)) := by
  have hsig : ∀ (buf : List Nat) (offset : Nat), offset + 13 ≤ buf.length →
      sigPhase buf offset 0xfd (some 1) =
        ([.signatureLink offset, .signatureTime (offset + 1),
          .signatureSignature (offset + 7)], offset + 13, false) := by
    intro buf offset hlen
    unfold sigPhase
    rw [if_pos ⟨rfl, rfl⟩, if_pos (by omega), if_pos (by omega),
      if_pos (by omega)]
  refine ⟨?_, ?_, ?_, hsig⟩
  · intro buf offset version inc hlen
    constructor
    · intro hne
      by_contra hcond
      rw [show sigPhase buf offset version inc = ([], offset, false) by
        unfold sigPhase; rw [if_neg hcond]] at hne
      exact hne rfl
    · rintro ⟨hv, hi⟩
      subst hv hi
      rw [hsig buf offset hlen]
      simp
  · intro buf offset version inc hv
    unfold sigPhase
    rw [if_neg (by exact fun hc => hv hc.1)]
  · intro buf offset
    unfold headerPhase
    rw [if_pos rfl]
    split
    · rfl
    · dsimp only
      split <;> rfl

/-- Witness for C3 (amended): on a 20-byte buffer, the signature block at
offset 2 is consumed exactly under flag value 0x01, with the three signature
ranges at offsets 2, 3 and 9. -/
theorem c3_amended_signature_rule_witness :
    ((sigPhase (List.replicate 20 0) 2 0xfd (some 1)).1 ≠ [])
  ∧ sigPhase (List.replicate 20 0) 2 0xfd (some 1) =
      ([.signatureLink 2, .signatureTime 3, .signatureSignature 9], 15, false)
  ∧ ¬((sigPhase (List.replicate 20 0) 2 0xfd (some 3)).1 ≠ []) :=
  ⟨(c3_amended_signature_rule.1 _ 2 0xfd (some 1) (by simp)).mpr ⟨rfl, rfl⟩,
   c3_amended_signature_rule.2.2.2 _ 2 (by simp),
   fun h => by
     rcases (c3_amended_signature_rule.1 _ 2 0xfd (some 3) (by simp)).mp h
       with ⟨-, h3⟩
     exact Option.noConfusion h3 (fun h31 => by omega)⟩

/-- Helper: when the byte at the current offset is a recognised magic value,
the scanning loop stops there at once. -/
theorem scanLoop_at_magic (buf : List Nat) (offset ufbo : Nat)
    (hoff : offset < buf.length) (hm : isMagic (buf.getD offset 0) = true) :
    scanLoop buf (buf.length - offset) offset ufbo =
      .found (buf.getD offset 0) offset ufbo := by
  obtain ⟨k, hk⟩ : ∃ k, buf.length - offset = k + 1 :=
    ⟨buf.length - offset - 1, by omega⟩
  rw [hk]
  unfold scanLoop
  dsimp only
  rw [if_pos hm]

/-- Helper: the legacy (0xFE) header decodes fully when strictly more than
6 bytes remain before the 2 checksum bytes. -/
theorem headerPhase_fe_full (buf : List Nat) (offset : Nat)
    (h : (buf.length : Int) - 2 - offset > 6) :
    headerPhase buf offset 0xfe =
      { events := [.header offset 6], offset := offset + 6,
        msgid := some (buf.getD (offset + 5) 0),
        length := some (buf.getD (offset + 1) 0),
        incompat := none, err := false } := by
  unfold headerPhase
  rw [if_pos rfl, if_pos h]

/-- Helper: with at most 6 (but non-negatively many) bytes remaining before
the checksum, the legacy header branch emits them as a raw header range. -/
theorem headerPhase_fe_trunc (buf : List Nat) (offset : Nat)
    (h1 : ¬((buf.length : Int) - 2 - offset > 6))
    (h2 : 0 ≤ (buf.length : Int) - 2 - offset) :
    headerPhase buf offset 0xfe =
      { events := [.rawheader offset (buf.length - 2 - offset)],
        offset := buf.length - 2, msgid := none, length := none,
        incompat := none, err := false } := by
  unfold headerPhase
  rw [if_pos rfl, if_neg h1]
  dsimp only
  rw [if_neg (by omega)]
  have ht : ((buf.length : Int) - 2 - offset).toNat = buf.length - 2 - offset := by
    omega
  rw [ht]
  have ho : offset + (buf.length - 2 - offset) = buf.length - 2 := by omega
  rw [ho]

/-- Helper: the current (0xFD) header decodes fully when strictly more than
10 bytes remain before the 2 checksum bytes. -/
theorem headerPhase_fd_full (buf : List Nat) (offset : Nat)
    (h : (buf.length : Int) - 2 - offset > 10) :
    headerPhase buf offset 0xfd =
      { events := [.header offset 10], offset := offset + 10,
        msgid := some (leUint3 buf (offset + 7)),
        length := some (buf.getD (offset + 1) 0),
        incompat := some (buf.getD (offset + 2) 0), err := false } := by
  unfold headerPhase
  rw [if_neg (by norm_num), if_pos rfl, if_pos h]

/-- Helper: with at most 10 (but non-negatively many) bytes remaining
before the checksum, the current header branch emits them as a raw header
range. -/
theorem headerPhase_fd_trunc (buf : List Nat) (offset : Nat)
    (h1 : ¬((buf.length : Int) - 2 - offset > 10))
    (h2 : 0 ≤ (buf.length : Int) - 2 - offset) :
    headerPhase buf offset 0xfd =
      { events := [.rawheader offset (buf.length - 2 - offset)],
        offset := buf.length - 2, msgid := none, length := none,
        incompat := none, err := false } := by
  unfold headerPhase
  rw [if_neg (by norm_num), if_pos rfl, if_neg h1]
  dsimp only
  rw [if_neg (by omega)]
  have ht : ((buf.length : Int) - 2 - offset).toNat = buf.length - 2 - offset := by
    omega
  rw [ht]
  have ho : offset + (buf.length - 2 - offset) = buf.length - 2 := by omega
  rw [ho]

/-- Helper: the BODY section with a `nil` message id (truncated header)
takes the unknown-message branch, emitting everything up to the checksum as
a raw payload range. -/
theorem bodyPhase_nil_msgid (fns : Nat → Bool) (buf : List Nat) (offset : Nat)
    (h : 0 ≤ (buf.length : Int) - 2 - offset) :
    bodyPhase fns buf offset none none =
      ([.expertUnknown, .rawpayload offset (buf.length - 2 - offset)],
        buf.length - 2, false) := by
  unfold bodyPhase
  dsimp only
  rw [if_neg (by simp), if_neg (by omega)]
  have ht : ((buf.length : Int) - 2 - offset).toNat = buf.length - 2 - offset := by
    omega
  rw [ht]
  have ho : offset + (buf.length - 2 - offset) = buf.length - 2 := by omega
  rw [ho]

/-- Helper: the BODY section with an unregistered message id takes the same
unknown-message branch, regardless of the declared length. -/
theorem bodyPhase_unknown_msgid (fns : Nat → Bool) (buf : List Nat)
    (offset m : Nat) (len? : Option Nat) (hm : fns m = false)
    (h : 0 ≤ (buf.length : Int) - 2 - offset) :
    bodyPhase fns buf offset (some m) len? =
      ([.expertUnknown, .rawpayload offset (buf.length - 2 - offset)],
        buf.length - 2, false) := by
  unfold bodyPhase
  dsimp only
  rw [if_neg (by simp [hm]), if_neg (by omega)]
  have ht : ((buf.length : Int) - 2 - offset).toNat = buf.length - 2 - offset := by
    omega
  rw [ht]
  have ho : offset + (buf.length - 2 - offset) = buf.length - 2 := by omega
  rw [ho]

/-- Helper: the CRC section consumes 2 in-bounds bytes. -/
theorem crcPhase_ok (buf : List Nat) (offset : Nat)
    (h : offset + 2 ≤ buf.length) :
    crcPhase buf offset = ([.crc offset], offset + 2, false) := by
  unfold crcPhase
  rw [if_pos h]

/-- Helper: the SIGNATURE section is skipped whenever the version/flag pair
is not exactly (0xFD, 0x01). -/
theorem sigPhase_skip (buf : List Nat) (offset version : Nat)
    (inc : Option Nat) (h : ¬(version = 0xfd ∧ inc = some 1)) :
    sigPhase buf offset version inc = ([], offset, false) := by
  unfold sigPhase
  rw [if_neg h]

/-- Helper: the SIGNATURE section for a signed (0xFD, flag exactly 0x01)
packet whose link-id byte lies past the buffer end raises a Lua tvb range
error on `buffer(offset, 1)`. -/
theorem sigPhase_err_at_end (buf : List Nat) (offset : Nat)
    (h : buf.length < offset + 1) :
    sigPhase buf offset 0xfd (some 1) = ([.err], offset, true) := by
  unfold sigPhase
  rw [if_pos ⟨rfl, rfl⟩, if_neg (by omega)]

/-- Helper: `afterScan` with no pending unknown span, err-free header, body
and CRC sections, but an erring signature section, ends the dissector call
with the events accumulated so far plus the error. -/
theorem afterScan_sig_err (fns : Nat → Bool) (buf : List Nat)
    (version offset mc : Nat)
    (H : HeaderOut) (hh : headerPhase buf offset version = H)
    (hHerr : H.err = false)
    (B : List Event × Nat × Bool)
    (hb : bodyPhase fns buf H.offset H.msgid H.length = B)
    (hBerr : B.2.2 = false)
    (C : List Event × Nat × Bool) (hc : crcPhase buf B.2.1 = C)
    (hCerr : C.2.2 = false)
    (S : List Event × Nat × Bool)
    (hs : sigPhase buf C.2.1 version H.incompat = S) (hSerr : S.2.2 = true) :
    afterScan fns buf version offset 0 mc =
      .ret (H.events ++ B.1 ++ C.1 ++ S.1) := by
  unfold afterScan
  rw [if_neg (by simp)]
  simp only [hh, hb, hc, hs, hHerr, hBerr, hCerr, hSerr]
  simp

/-- Helper: `afterScan` with no pending unknown span composes the four
err-free phase results into a continuing iteration. -/
theorem afterScan_eq (fns : Nat → Bool) (buf : List Nat)
    (version offset mc : Nat)
    (H : HeaderOut) (hh : headerPhase buf offset version = H)
    (hHerr : H.err = false)
    (B : List Event × Nat × Bool)
    (hb : bodyPhase fns buf H.offset H.msgid H.length = B)
    (hBerr : B.2.2 = false)
    (C : List Event × Nat × Bool) (hc : crcPhase buf B.2.1 = C)
    (hCerr : C.2.2 = false)
    (S : List Event × Nat × Bool)
    (hs : sigPhase buf C.2.1 version H.incompat = S) (hSerr : S.2.2 = false) :
    afterScan fns buf version offset 0 mc =
      .cont (H.events ++ B.1 ++ C.1 ++ S.1) S.2.1 0 mc := by
  unfold afterScan
  rw [if_neg (by simp)]
  simp only [hh, hb, hc, hs, hHerr, hBerr, hCerr, hSerr]
  simp

/-- Helper: an outer-loop pass starting on a magic byte runs the post-scan
sections directly at that offset. -/
theorem runIteration_at_magic (fns : Nat → Bool) (buf : List Nat)
    (offset ufbo mc : Nat) (hoff : offset < buf.length)
    (hm : isMagic (buf.getD offset 0) = true) :
    runIteration fns buf offset ufbo mc =
      afterScan fns buf (buf.getD offset 0) offset ufbo (mc + 1) := by
  unfold runIteration
  rw [scanLoop_at_magic buf offset ufbo hoff hm]

/-- C4 (amended): at a position holding a magic byte, the header is decoded
exactly when STRICTLY MORE than header_size bytes (6 legacy / 10 current)
remain before the trailing 2 checksum bytes; when between 0 and header_size
bytes remain, those bytes are emitted as one raw incomplete-header range,
the (empty) unknown-message raw range and the checksum item are added, and
the iteration ends at the buffer end, so no further packet is processed
from this buffer. -/
theorem c4_amended_header_gate (fns : Nat → Bool) (buf : List Nat)
    (offset mc : Nat) (hoff : offset < buf.length) :
    (buf.getD offset 0 = 0xfe →
      (((buf.length : Int) - 2 - offset > 6 →
          headerPhase buf offset 0xfe =
            { events := [.header offset 6], offset := offset + 6,
              msgid := some (buf.getD (offset + 5) 0),
              length := some (buf.getD (offset + 1) 0),
              incompat := none, err := false })
        ∧ (0 ≤ (buf.length : Int) - 2 - offset →
            (buf.length : Int) - 2 - offset ≤ 6 →
            runIteration fns buf offset 0 mc =
              .cont [.rawheader offset (buf.length - 2 - offset),
                .expertUnknown, .rawpayload (buf.length - 2) 0,
                .crc (buf.length - 2)] buf.length 0 (mc + 1))))
  ∧ (buf.getD offset 0 = 0xfd →
      (((buf.length : Int) - 2 - offset > 10 →
          headerPhase buf offset 0xfd =
            { events := [.header offset 10], offset := offset + 10,
              msgid := some (leUint3 buf (offset + 7)),
              length := some (buf.getD (offset + 1) 0),
              incompat := some (buf.getD (offset + 2) 0), err := false })
        ∧ (0 ≤ (buf.length : Int) - 2 - offset →
            (buf.length : Int) - 2 - offset ≤ 10 →
            runIteration fns buf offset 0 mc =
              .cont [.rawheader offset (buf.length - 2 - offset),
                .expertUnknown, .rawpayload (buf.length - 2) 0,
                .crc (buf.length - 2)] buf.length 0 (mc + 1)))) := by
  constructor
  · intro hv
    refine ⟨headerPhase_fe_full buf offset, ?_⟩
    intro h2 h1
    rw [runIteration_at_magic fns buf offset 0 mc hoff (by rw [hv]; decide), hv]
    rw [afterScan_eq fns buf 0xfe offset (mc + 1)
      _ (headerPhase_fe_trunc buf offset (by omega) h2) rfl
      _ (bodyPhase_nil_msgid fns buf (buf.length - 2) (by omega)) rfl
      _ (crcPhase_ok buf (buf.length - 2) (by omega)) rfl
      _ (sigPhase_skip buf (buf.length - 2 + 2) 0xfe none (by simp)) rfl]
    have hlen : buf.length - 2 + 2 = buf.length := by omega
    simp [hlen, Nat.sub_self]
  · intro hv
    refine ⟨headerPhase_fd_full buf offset, ?_⟩
    intro h2 h1
    rw [runIteration_at_magic fns buf offset 0 mc hoff (by rw [hv]; decide), hv]
    rw [afterScan_eq fns buf 0xfd offset (mc + 1)
      _ (headerPhase_fd_trunc buf offset (by omega) h2) rfl
      _ (bodyPhase_nil_msgid fns buf (buf.length - 2) (by omega)) rfl
      _ (crcPhase_ok buf (buf.length - 2) (by omega)) rfl
      _ (sigPhase_skip buf (buf.length - 2 + 2) 0xfd none (by simp)) rfl]
    have hlen : buf.length - 2 + 2 = buf.length := by omega
    simp [hlen, Nat.sub_self]

/-- Witness for C4 (amended): the 8-byte exact-fit legacy buffer takes the
raw-header branch and ends the buffer; a 9-byte buffer (7 bytes before the
checksum) decodes the header. -/
theorem c4_amended_header_gate_witness :
    runIteration (fun _ => true) [0xFE, 0, 0, 0, 0, 5, 0, 0] 0 0 0 =
      .cont [.rawheader 0 6, .expertUnknown, .rawpayload 6 0, .crc 6] 8 0 1
  ∧ headerPhase [0xFE, 1, 0, 0, 0, 5, 9, 0, 0] 0 0xfe =
      { events := [.header 0 6], offset := 6, msgid := some 5,
        length := some 1, incompat := none, err := false } := by
  constructor
  · have h := ((c4_amended_header_gate (fun _ => true)
      [0xFE, 0, 0, 0, 0, 5, 0, 0] 0 0 (by norm_num)).1 (by decide)).2
      (by norm_num) (by norm_num)
    simpa using h
  · have h := ((c4_amended_header_gate (fun _ => true)
      [0xFE, 1, 0, 0, 0, 5, 9, 0, 0] 0 0 (by norm_num)).1 (by decide)).1
      (by norm_num)
    simpa using h

/-- C5 (amended): a well-formed header whose message id has no registered
decode procedure yields exactly one raw payload range covering
`[payload_start, buffer length - 2)` — everything up to the checksum,
regardless of the declared length `limit` — together with the malformed
expert annotation, and the 2-byte checksum at the end of the buffer is then
consumed.  The unknown id itself is never treated as a failure, but no
subsequent packet is ever reached: for a legacy header, or a current header
whose incompatibility-flags byte is not exactly 0x01, the iteration
continues at the buffer end (first two conjuncts); for a current header
with incompatibility flag exactly 0x01, the signature section then reads
`buffer(offset, 1)` at the buffer end — the raw range has already swallowed
every remaining byte — and the decode aborts with a Lua range error after
the checksum (third conjunct). -/
theorem c5_amended_unknown_msgid (fns : Nat → Bool) (buf : List Nat)
    (offset mc : Nat) (hoff : offset < buf.length) :
    (buf.getD offset 0 = 0xfe → (buf.length : Int) - 2 - offset > 6 →
      fns (buf.getD (offset + 5) 0) = false →
      runIteration fns buf offset 0 mc =
        .cont [.header offset 6, .expertUnknown,
          .rawpayload (offset + 6) (buf.length - 2 - (offset + 6)),
          .crc (buf.length - 2)] buf.length 0 (mc + 1))
  ∧ (buf.getD offset 0 = 0xfd → (buf.length : Int) - 2 - offset > 10 →
      fns (leUint3 buf (offset + 7)) = false →
      buf.getD (offset + 2) 0 ≠ 1 →
      runIteration fns buf offset 0 mc =
        .cont [.header offset 10, .expertUnknown,
          .rawpayload (offset + 10) (buf.length - 2 - (offset + 10)),
          .crc (buf.length - 2)] buf.length 0 (mc + 1))
  ∧ (buf.getD offset 0 = 0xfd → (buf.length : Int) - 2 - offset > 10 →
      fns (leUint3 buf (offset + 7)) = false →
      buf.getD (offset + 2) 0 = 1 →
      runIteration fns buf offset 0 mc =
        .ret [.header offset 10, .expertUnknown,
          .rawpayload (offset + 10) (buf.length - 2 - (offset + 10)),
          .crc (buf.length - 2), .err]) := by
  refine ⟨?_, ?_, ?_⟩
  · intro hv hlen hfns
    rw [runIteration_at_magic fns buf offset 0 mc hoff (by rw [hv]; decide), hv]
    rw [afterScan_eq fns buf 0xfe offset (mc + 1)
      _ (headerPhase_fe_full buf offset hlen) rfl
      _ (bodyPhase_unknown_msgid fns buf (offset + 6) _
          (some (buf.getD (offset + 1) 0)) hfns (by omega)) rfl
      _ (crcPhase_ok buf (buf.length - 2) (by omega)) rfl
      _ (sigPhase_skip buf (buf.length - 2 + 2) 0xfe none (by simp)) rfl]
    have hl2 : buf.length - 2 + 2 = buf.length := by omega
    simp [hl2]
  · intro hv hlen hfns hni
    rw [runIteration_at_magic fns buf offset 0 mc hoff (by rw [hv]; decide), hv]
    rw [afterScan_eq fns buf 0xfd offset (mc + 1)
      _ (headerPhase_fd_full buf offset hlen) rfl
      _ (bodyPhase_unknown_msgid fns buf (offset + 10) _
          (some (buf.getD (offset + 1) 0)) hfns (by omega)) rfl
      _ (crcPhase_ok buf (buf.length - 2) (by omega)) rfl
      _ (sigPhase_skip buf (buf.length - 2 + 2) 0xfd
          (some (buf.getD (offset + 2) 0))
          (by rintro ⟨-, hx⟩; exact hni (Option.some.inj hx))) rfl]
    have hl2 : buf.length - 2 + 2 = buf.length := by omega
    simp [hl2]
  · intro hv hlen hfns hinc
    rw [runIteration_at_magic fns buf offset 0 mc hoff (by rw [hv]; decide), hv]
    rw [afterScan_sig_err fns buf 0xfd offset (mc + 1)
      _ (headerPhase_fd_full buf offset hlen) rfl
      _ (bodyPhase_unknown_msgid fns buf (offset + 10) _
          (some (buf.getD (offset + 1) 0)) hfns (by omega)) rfl
      _ (crcPhase_ok buf (buf.length - 2) (by omega)) rfl
      _ (by
          show sigPhase buf (buf.length - 2 + 2) 0xfd
            (some (buf.getD (offset + 2) 0)) = ([.err], buf.length - 2 + 2, true)
          rw [hinc]
          exact sigPhase_err_at_end buf (buf.length - 2 + 2) (by omega)) rfl]
    simp

/-- Witness for C5 (amended): the 9-byte legacy buffer with unregistered
message id 99 produces the raw range `[6, 7)`, then the checksum, and the
iteration continues to the buffer end; the 13-byte signed current-variant
buffer (incompatibility flag 0x01) with unregistered message id 99 produces
the raw range `[10, 11)`, the checksum, and then the signature-section range
error. -/
theorem c5_amended_unknown_msgid_witness :
    runIteration (fun _ => false) [0xFE, 0, 0, 0, 0, 99, 7, 0, 0] 0 0 0 =
      .cont [.header 0 6, .expertUnknown, .rawpayload 6 1, .crc 7] 9 0 1
  ∧ runIteration (fun _ => false)
      [0xFD, 0, 1, 0, 0, 0, 0, 99, 0, 0, 7, 0, 0] 0 0 0 =
      .ret [.header 0 10, .expertUnknown, .rawpayload 10 1, .crc 11, .err] := by
  constructor
  · have h := (c5_amended_unknown_msgid (fun _ => false)
      [0xFE, 0, 0, 0, 0, 99, 7, 0, 0] 0 0 (by norm_num)).1
      (by decide) (by norm_num) (by decide)
    simpa using h
  · have h := (c5_amended_unknown_msgid (fun _ => false)
      [0xFD, 0, 1, 0, 0, 0, 0, 99, 0, 0, 7, 0, 0] 0 0 (by norm_num)).2.2
      (by decide) (by norm_num) (by decide) (by decide)
    simpa using h

/-- RawRangesFrom1: every raw/unparsed byte range among the events starts
at offset 1 or later (hence never includes byte 0). -/
def RawRangesFrom1 (ev : List Event) : Prop :=
  ∀ e ∈ ev, ∀ s sz,
    (e = Event.rawpayload s sz ∨ e = Event.rawheader s sz) → 1 ≤ s

/-- IterRawOK: the events of an iteration outcome satisfy `RawRangesFrom1`,
and a continuing outcome resumes at offset 1 or later. -/
def IterRawOK : IterOut → Prop
  | .ret ev => RawRangesFrom1 ev
  | .cont ev o _ _ => RawRangesFrom1 ev ∧ 1 ≤ o

theorem rawRanges_nil : RawRangesFrom1 [] := by
  intro e he
  exact absurd he (List.not_mem_nil e)

theorem rawRanges_append {a b : List Event} (ha : RawRangesFrom1 a)
    (hb : RawRangesFrom1 b) : RawRangesFrom1 (a ++ b) := by
  intro e he s sz hor
  rcases List.mem_append.mp he with h | h
  · exact ha e h s sz hor
  · exact hb e h s sz hor

theorem rawRanges_cons {e : Event} {l : List Event}
    (he : ∀ s sz, (e = Event.rawpayload s sz ∨ e = Event.rawheader s sz) →
      1 ≤ s)
    (hl : RawRangesFrom1 l) : RawRangesFrom1 (e :: l) := by
  intro x hx s sz hor
  rcases List.mem_cons.mp hx with h | h
  · subst h
    exact he s sz hor
  · exact hl x h s sz hor

/-- Helper: the scanning loop never moves backwards before reporting a
magic byte. -/
theorem scanLoop_found_ge (buf : List Nat) :
    ∀ (fuel offset ufbo v o u : Nat),
      scanLoop buf fuel offset ufbo = .found v o u → offset ≤ o := by
  intro fuel
  induction fuel with
  | zero =>
    intro offset ufbo v o u h
    exact absurd h (by unfold scanLoop; simp)
  | succ fuel ih =>
    intro offset ufbo v o u h
    unfold scanLoop at h
    by_cases hm : isMagic (buf.getD offset 0) = true
    · rw [if_pos hm] at h
      cases h
      exact Nat.le_refl _
    · rw [if_neg hm] at h
      dsimp only at h
      by_cases hlt : offset + 1 < buf.length
      · rw [if_pos hlt] at h
        exact Nat.le_of_succ_le (ih (offset + 1) _ v o u h)
      · rw [if_neg hlt] at h
        by_cases hz : (if ufbo = 0 then offset else ufbo) ≠ 0
        · rw [if_pos hz] at h
          cases h
        · rw [if_neg hz] at h
          cases h

/-- Helper: if the scanning loop starts on a non-magic byte, any magic byte
it finds is strictly further on. -/
theorem scanLoop_found_of_not_magic (buf : List Nat)
    (fuel offset ufbo v o u : Nat)
    (hm : isMagic (buf.getD offset 0) = false)
    (h : scanLoop buf fuel offset ufbo = .found v o u) : offset + 1 ≤ o := by
  match fuel with
  | 0 => exact absurd h (by unfold scanLoop; simp)
  | fuel + 1 =>
    unfold scanLoop at h
    rw [if_neg (by rw [hm]; simp)] at h
    dsimp only at h
    by_cases hlt : offset + 1 < buf.length
    · rw [if_pos hlt] at h
      exact scanLoop_found_ge buf fuel (offset + 1) _ v o u h
    · rw [if_neg hlt] at h
      by_cases hz : (if ufbo = 0 then offset else ufbo) ≠ 0
      · rw [if_pos hz] at h
        cases h
      · rw [if_neg hz] at h
        cases h

/-- Helper: the events of a scanning-loop `return` path are raw flushes of a
recorded (hence nonzero) begin offset, or nothing. -/
theorem scanLoop_exhausted_raw (buf : List Nat) :
    ∀ (fuel offset ufbo : Nat) (ev : List Event),
      scanLoop buf fuel offset ufbo = .exhausted ev → RawRangesFrom1 ev := by
  intro fuel
  induction fuel with
  | zero =>
    intro offset ufbo ev h
    unfold scanLoop at h
    cases h
    exact rawRanges_cons (by rintro s sz (h | h) <;> simp at h) rawRanges_nil
  | succ fuel ih =>
    intro offset ufbo ev h
    unfold scanLoop at h
    by_cases hm : isMagic (buf.getD offset 0) = true
    · rw [if_pos hm] at h
      exact absurd h (by simp)
    · rw [if_neg hm] at h
      dsimp only at h
      by_cases hlt : offset + 1 < buf.length
      · rw [if_pos hlt] at h
        exact ih (offset + 1) _ ev h
      · rw [if_neg hlt] at h
        by_cases hu : (if ufbo = 0 then offset else ufbo) ≠ 0
        · rw [if_pos hu] at h
          cases h
          refine rawRanges_cons ?_ rawRanges_nil
          rintro s sz (h | h)
          · injection h with h1 h2
            omega
          · simp at h
        · rw [if_neg hu] at h
          cases h
          exact rawRanges_nil

/-- Helper: header-section events carry no raw range before the current
offset, and the offset never moves backwards. -/
theorem headerPhase_raw (buf : List Nat) (offset v : Nat) (h1 : 1 ≤ offset) :
    RawRangesFrom1 (headerPhase buf offset v).events
    ∧ offset ≤ (headerPhase buf offset v).offset := by
  unfold headerPhase
  dsimp only
  split
  · split
    · exact ⟨rawRanges_cons (by rintro s sz (h | h) <;> simp at h)
        rawRanges_nil, by dsimp only; omega⟩
    · split
      · exact ⟨rawRanges_cons (by rintro s sz (h | h) <;> simp at h)
          rawRanges_nil, by dsimp only; omega⟩
      · refine ⟨rawRanges_cons ?_ rawRanges_nil, by dsimp only; omega⟩
        rintro s sz (h | h)
        · simp at h
        · injection h with h2 h3
          omega
  · split
    · split
      · exact ⟨rawRanges_cons (by rintro s sz (h | h) <;> simp at h)
          rawRanges_nil, by dsimp only; omega⟩
      · split
        · exact ⟨rawRanges_cons (by rintro s sz (h | h) <;> simp at h)
            rawRanges_nil, by dsimp only; omega⟩
        · refine ⟨rawRanges_cons ?_ rawRanges_nil, by dsimp only; omega⟩
          rintro s sz (h | h)
          · simp at h
          · injection h with h2 h3
            omega
    · exact ⟨rawRanges_nil, by dsimp only; omega⟩

/-- Helper: body-section events carry no raw range before the current
offset. -/
theorem bodyPhase_raw (fns : Nat → Bool) (buf : List Nat) (offset : Nat)
    (msgid : Option Nat) (length : Option Nat) (h1 : 1 ≤ offset) :
    RawRangesFrom1 (bodyPhase fns buf offset msgid length).1 := by
  unfold bodyPhase
  dsimp only
  split
  · split <;> split <;>
      exact rawRanges_cons (by rintro s sz (h | h) <;> simp at h)
        rawRanges_nil
  · split
    · exact rawRanges_cons (by rintro s sz (h | h) <;> simp at h)
        rawRanges_nil
    · refine rawRanges_cons (by rintro s sz (h | h) <;> simp at h)
        (rawRanges_cons ?_ rawRanges_nil)
      rintro s sz (h | h)
      · injection h with h2 h3
        omega
      · simp at h

/-- Helper: CRC-section events carry no raw range. -/
theorem crcPhase_raw (buf : List Nat) (offset : Nat) :
    RawRangesFrom1 (crcPhase buf offset).1 := by
  unfold crcPhase
  split <;>
    exact rawRanges_cons (by rintro s sz (h | h) <;> simp at h) rawRanges_nil

/-- Helper: an err-free CRC section advances the offset by exactly 2. -/
theorem crcPhase_cont (buf : List Nat) (offset : Nat)
    (h : (crcPhase buf offset).2.2 = false) :
    (crcPhase buf offset).2.1 = offset + 2 := by
  unfold crcPhase at h ⊢
  split at h
  · rw [if_pos (by assumption)]
  · simp at h

/-- Helper: signature-section events carry no raw range. -/
theorem sigPhase_raw (buf : List Nat) (offset v : Nat) (inc : Option Nat) :
    RawRangesFrom1 (sigPhase buf offset v inc).1 := by
  unfold sigPhase
  split
  · split
    · split
      · split <;>
          (refine rawRanges_cons (by rintro s sz (h | h) <;> simp at h)
            (rawRanges_cons (by rintro s sz (h | h) <;> simp at h)
              (rawRanges_cons (by rintro s sz (h | h) <;> simp at h)
                rawRanges_nil)))
      · exact rawRanges_cons (by rintro s sz (h | h) <;> simp at h)
          (rawRanges_cons (by rintro s sz (h | h) <;> simp at h)
            rawRanges_nil)
    · exact rawRanges_cons (by rintro s sz (h | h) <;> simp at h)
        rawRanges_nil
  · exact rawRanges_nil

/-- Helper: the signature section never moves the offset backwards. -/
theorem sigPhase_ge (buf : List Nat) (offset v : Nat) (inc : Option Nat) :
    offset ≤ (sigPhase buf offset v inc).2.1 := by
  unfold sigPhase
  split
  · split
    · split
      · split <;> (dsimp only; omega)
      · dsimp only
        omega
    · dsimp only
      omega
  · dsimp only
    omega

/-- Helper: the sections after the scan preserve the raw-range invariant
when the magic byte was found at offset 1 or later. -/
theorem afterScan_rawOK (fns : Nat → Bool) (buf : List Nat)
    (v offset ufbo mc : Nat) (h1 : 1 ≤ offset) :
    IterRawOK (afterScan fns buf v offset ufbo mc) := by
  unfold afterScan
  split
  · refine rawRanges_cons ?_ rawRanges_nil
    rintro s sz (h | h)
    · injection h with h2 h3
      omega
    · simp at h
  · dsimp only
    have hH := headerPhase_raw buf offset v h1
    have hB := bodyPhase_raw fns buf (headerPhase buf offset v).offset
      (headerPhase buf offset v).msgid (headerPhase buf offset v).length
      (by omega)
    have hC := crcPhase_raw buf
      (bodyPhase fns buf (headerPhase buf offset v).offset
        (headerPhase buf offset v).msgid (headerPhase buf offset v).length).2.1
    split
    · exact hH.1
    · split
      · exact rawRanges_append hH.1 hB
      · split
        · exact rawRanges_append (rawRanges_append hH.1 hB) hC
        · split
          · exact rawRanges_append
              (rawRanges_append (rawRanges_append hH.1 hB) hC)
              (sigPhase_raw buf _ v _)
          · refine ⟨rawRanges_append
              (rawRanges_append (rawRanges_append hH.1 hB) hC)
              (sigPhase_raw buf _ v _), ?_⟩
            have hcc := crcPhase_cont buf
              (bodyPhase fns buf (headerPhase buf offset v).offset
                (headerPhase buf offset v).msgid
                (headerPhase buf offset v).length).2.1
              (by simp_all)
            have hsg := sigPhase_ge buf
              (crcPhase buf
                (bodyPhase fns buf (headerPhase buf offset v).offset
                  (headerPhase buf offset v).msgid
                  (headerPhase buf offset v).length).2.1).2.1 v
              (headerPhase buf offset v).incompat
            omega

/-- Helper: one outer-loop pass preserves the raw-range invariant: every
raw range it emits starts at 1 or later, provided either the pass starts at
offset 1 or later, or it starts at offset 0 on a non-magic byte. -/
theorem runIteration_rawOK (fns : Nat → Bool) (buf : List Nat)
    (offset ufbo mc : Nat)
    (hyp : 1 ≤ offset ∨ (offset = 0 ∧ isMagic (buf.getD 0 0) = false)) :
    IterRawOK (runIteration fns buf offset ufbo mc) := by
  unfold runIteration
  cases hscan : scanLoop buf (buf.length - offset) offset ufbo with
  | exhausted ev =>
    exact scanLoop_exhausted_raw buf _ offset ufbo ev hscan
  | found v o u =>
    have h1 : 1 ≤ o := by
      rcases hyp with h | ⟨h0, hm⟩
      · exact Nat.le_trans h (scanLoop_found_ge buf _ offset ufbo v o u hscan)
      · subst h0
        exact scanLoop_found_of_not_magic buf _ 0 ufbo v o u hm hscan
    exact afterScan_rawOK fns buf v o u (mc + 1) h1

/-- Helper: the outer loop preserves the raw-range invariant from any
offset 1 or later. -/
theorem dissectorLoop_rawOK (fns : Nat → Bool) (buf : List Nat) :
    ∀ (fuel offset ufbo mc : Nat), 1 ≤ offset →
      RawRangesFrom1 (dissectorLoop fns buf fuel offset ufbo mc) := by
  intro fuel
  induction fuel with
  | zero =>
    intro offset ufbo mc h1
    exact rawRanges_cons (by rintro s sz (h | h) <;> simp at h) rawRanges_nil
  | succ fuel ih =>
    intro offset ufbo mc h1
    unfold dissectorLoop
    split
    · have hrun := runIteration_rawOK fns buf offset ufbo mc (Or.inl h1)
      cases hit : runIteration fns buf offset ufbo mc with
      | ret ev =>
        rw [hit] at hrun
        exact hrun
      | cont ev o' u' m' =>
        rw [hit] at hrun
        exact rawRanges_append hrun.1 (ih o' u' m' hrun.2)
    · exact rawRanges_nil

/-- C10 (implicit behaviour): the framing loop uses offset 0 as the
"no open span" sentinel of `unknownFrameBeginOffset`, so on every buffer
whose first byte is not a recognised magic value, no emitted raw/unparsed
range ever starts at offset 0 — byte 0 is never covered.  Concretely, one
garbage byte before a valid registered packet yields no raw range at all,
and a 3-byte all-garbage buffer is reported as a raw range starting at
offset 1 (of length 2). -/
theorem c10_sentinel_skips_byte_zero (fns : Nat → Bool) (buf : List Nat)
    (h0 : isMagic (buf.getD 0 0) = false) :
    (∀ e ∈ dissector fns buf, ∀ s sz,
      (e = Event.rawpayload s sz ∨ e = Event.rawheader s sz) → 1 ≤ s)
  ∧ dissector (fun m => m == 5) [1, 0xFE, 1, 0, 0, 0, 5, 9, 0, 0] =
      [.header 1 6, .payload 5 7 1, .crc 8]
  ∧ dissector (fun _ => false) [1, 2, 3] = [.rawpayload 1 2] := by
  refine ⟨?_, by decide, by decide⟩
  show RawRangesFrom1 (dissector fns buf)
  unfold dissector
  unfold dissectorLoop
  split
  · have hrun := runIteration_rawOK fns buf 0 0 0 (Or.inr ⟨rfl, h0⟩)
    cases hit : runIteration fns buf 0 0 0 with
    | ret ev =>
      rw [hit] at hrun
      exact hrun
    | cont ev o' u' m' =>
      rw [hit] at hrun
      exact rawRanges_append hrun.1
        (dissectorLoop_rawOK fns buf buf.length o' u' m' hrun.2)
  · exact rawRanges_nil

/-- Witness for C10: on the all-garbage 3-byte buffer, no raw range
covering byte 0 (offset 0, length 1) is ever emitted. -/
theorem c10_sentinel_skips_byte_zero_witness :
    Event.rawpayload 0 1 ∉ dissector (fun _ => false) [1, 2, 3] :=
  fun hmem =>
    absurd ((c10_sentinel_skips_byte_zero (fun _ => false) [1, 2, 3]
      (by decide)).1 (Event.rawpayload 0 1) hmem 0 1 (Or.inl rfl))
      (by omega)

end MavgenWlua
